import Mathlib

/-!
Verification of `packages/core/utils/lib/convert-rest-query-params.js`.

The JavaScript module is embedded shallowly:

* JavaScript values are modelled by the inductive `JVal`; objects are
  association lists in iteration order (for the string keys appearing here,
  JavaScript iteration order is insertion order) with distinct keys.
* Thrown errors are modelled by `Except JsError`; `JsError.invalidInput`
  stands for the explicit `throw new Error(...)` calls of the module, while
  `JsError.typeError` stands for a runtime `TypeError` (calling a string
  method on a non-string value).
* Numbers are modelled by `Int`: the module only ever accepts integral
  numbers (`_.isInteger` rejects everything else), so `jsToNumber` returns
  `Option Int`, with `none` standing for `NaN` or a non-integral coercion.
-/

/-- A JavaScript value, as far as this module inspects values: `undefined`,
`null`, booleans, (integral) numbers, strings, arrays, and plain objects.
Objects are association lists of key/value pairs in iteration order, with
distinct keys (a JavaScript object cannot hold a key twice). -/
inductive JVal where
  | undef : JVal
  | null : JVal
  | bool : Bool → JVal
  | num : Int → JVal
  | str : String → JVal
  | arr : List JVal → JVal
  | obj : List (String × JVal) → JVal

/-- An error thrown by the module: either one of its own
`throw new Error(...)` calls (`invalidInput`) or a JavaScript runtime
`TypeError` (`typeError`). -/
inductive JsError where
  | invalidInput : String → JsError
  | typeError : String → JsError

/-- The result of JavaScript `typeof` on a modelled value. -/
def jsTypeof : JVal → String
  | .undef => "undefined"
  | .null => "object"
  | .bool _ => "boolean"
  | .num _ => "number"
  | .str _ => "string"
  | .arr _ => "object"
  | .obj _ => "object"

/-- JavaScript truthiness of a modelled value (`NaN` is not representable:
numbers are integral). -/
def jsTruthy : JVal → Bool
  | .undef => false
  | .null => false
  | .bool b => b
  | .num n => n != 0
  | .str s => s.length != 0
  | .arr _ => true
  | .obj _ => true

/-- Whether a value is a string (`lodash/fp.isString`). -/
def jsIsString : JVal → Bool
  | .str _ => true
  | _ => false

/-- Property lookup on an object association list (first match; keys are
distinct, so this is the object's unique binding). `none` means the key is
absent. -/
def jsGet : List (String × JVal) → String → Option JVal
  | [], _ => none
  | (k', v) :: rest, k => if k' = k then some v else jsGet rest k

/-- Property assignment `o[k] = v`: overwrite in place if the key is
present, otherwise append (JavaScript keeps the original insertion position
of an overwritten key). -/
def jsSet : List (String × JVal) → String → JVal → List (String × JVal)
  | [], k, v => [(k, v)]
  | (k', v') :: rest, k, v =>
    if k' = k then (k, v) :: rest else (k', v') :: jsSet rest k v

/-- `Object.assign(o, src)`: copy the bindings of `src` into `o` in
iteration order. -/
def jsAssign (o : List (String × JVal)) : List (String × JVal) → List (String × JVal)
  | [] => o
  | (k, v) :: rest => jsAssign (jsSet o k v) rest

/-- `_.omit(o, names)`: the object without the named keys, other bindings
kept in order. -/
def jsOmit (o : List (String × JVal)) (names : List String) : List (String × JVal) :=
  o.filter fun kv => !(names.contains kv.1)

/-- The value a destructuring `const { k } = c` reads from a clause object
`c`, with default `d` when the key is absent or bound to `undefined`. -/
def jsField (c : JVal) (k : String) (d : JVal) : JVal :=
  match c with
  | .obj kvs =>
    match jsGet kvs k with
    | some .undef => d
    | some v => v
    | none => d
  | _ => d

/-- Split a character list at its last `'_'`: `some (front, back)` when an
underscore occurs (`front` is everything before the last one, `back`
everything after it), `none` otherwise.  This is
`key.lastIndexOf('_')` together with `key.substring(0, i)` / `key.slice(i + 1)`. -/
def splitAtLastUnderscoreAux : List Char → Option (List Char × List Char)
  | [] => none
  | c :: rest =>
    match splitAtLastUnderscoreAux rest with
    | some (front, back) => some (c :: front, back)
    | none => if c = '_' then some ([], rest) else none

/-- String form of `splitAtLastUnderscoreAux`. -/
def lastUnderscore (s : String) : Option (String × String) :=
  (splitAtLastUnderscoreAux s.data).map fun p => (String.mk p.1, String.mk p.2)

/-- Split a character list on a separator character; the result always has
at least one (possibly empty) group, like JavaScript `String.split`. -/
def splitCharAux (sep : Char) : List Char → List (List Char)
  | [] => [[]]
  | c :: rest =>
    match splitCharAux sep rest with
    | [] => [[]]
    | g :: gs => if c = sep then [] :: g :: gs else (c :: g) :: gs

/-- JavaScript `s.split(sep)` for a single-character separator. -/
def jsSplit (s : String) (sep : Char) : List String :=
  (splitCharAux sep s.data).map String.mk

/-- ASCII lower-casing, as `toLowerCase`/`toLocaleLowerCase` act on the
ASCII order tokens this module compares. -/
def asciiLower (s : String) : String :=
  String.mk (s.data.map Char.toLower)

/-- `BOOLEAN_OPERATORS` of the source. -/
def BOOLEAN_OPERATORS : List String := ["or", "and"]

/-- `QUERY_OPERATORS` of the source. -/
def QUERY_OPERATORS : List String := ["_where", "_or", "_and"]

/-- `VALID_REST_OPERATORS` of the source: the fixed operator vocabulary. -/
def VALID_REST_OPERATORS : List String :=
  ["eq", "ne", "in", "nin", "contains", "ncontains", "containss",
   "ncontainss", "lt", "lte", "gt", "gte", "null"]

/-- The clause object pushed by `convertWhereParams`: the destructuring
`const { field, operator = 'eq', value } = ...` followed by
`push({ field, operator, value })`. The `operator` default fires when the
key is absent or `undefined`. -/
def withDefaultOperator (c : JVal) : JVal :=
  .obj [("field", jsField c "field" .undef),
        ("operator", jsField c "operator" (.str "eq")),
        ("value", jsField c "value" .undef)]

/-- Index/character bindings that `Object.keys` enumerates on a string
primitive: key `toString i` bound to the one-character string at `i`. -/
def stringEntries (s : String) : List (String × JVal) :=
  s.data.enum.map fun p => (toString p.1, JVal.str (String.mk [p.2]))

mutual

/-- `convertWhereParams` of the source: an array is parsed element-wise and
the clause lists concatenated; an object is parsed key by key.  `Object.keys`
on a string primitive enumerates index/character pairs (an all-digit key has
no underscore, so `convertWhereClause` takes its first, implicit-equality
branch on them, and the destructuring fills in `operator = 'eq'`); on the
remaining primitives it enumerates nothing (`null`/`undefined` would make
the JavaScript throw a `TypeError`; the model returns the empty clause
list there, which no claim exercises). -/
def convertWhereParams : JVal → List JVal
  | .arr xs => convertWhereParamsList xs
  | .obj kvs => convertWhereObj kvs
  | .str s =>
    (stringEntries s).map fun p =>
      withDefaultOperator (.obj [("field", .str p.1), ("value", p.2)])
  | _ => []
termination_by v => (sizeOf v, 1)

/-- The `whereParams.reduce((acc, p) => acc.concat(convertWhereParams(p)), [])`
loop of `convertWhereParams` on an array. -/
def convertWhereParamsList : List JVal → List JVal
  | [] => []
  | x :: xs => convertWhereParams x ++ convertWhereParamsList xs
termination_by xs => (sizeOf xs, 0)

/-- The `Object.keys(whereParams).forEach(...)` loop of
`convertWhereParams`: one defaulted clause per binding, in iteration
order. -/
def convertWhereObj : List (String × JVal) → List JVal
  | [] => []
  | (k, v) :: rest =>
    withDefaultOperator (convertWhereClause k v) :: convertWhereObj rest
termination_by kvs => (sizeOf kvs, 0)

/-- `convertWhereClause` of the source: split the key at its last
underscore; no underscore means implicit equality on the whole key; an
empty front with an `or`/`and` back is a boolean composition; a back
outside `VALID_REST_OPERATORS` means the whole key is a field name with
implicit equality; otherwise front is the field and back the operator. -/
def convertWhereClause (k : String) (v : JVal) : JVal :=
  match lastUnderscore k with
  | none => .obj [("field", .str k), ("value", v)]
  | some (front, back) =>
    if BOOLEAN_OPERATORS.contains back && (front = "") then
      .obj [("field", .null), ("operator", .str back),
            ("value", .arr (boolGroupsOf v))]
    else if !(VALID_REST_OPERATORS.contains back) then
      .obj [("field", .str k), ("value", v)]
    else
      .obj [("field", .str front), ("operator", .str back), ("value", v)]
termination_by (sizeOf v, 3)

/-- `[].concat(value).map(convertWhereParams)` of the boolean branch: an
array value is parsed group by group; a non-array value is wrapped as the
single group `[value]`, so the result is `[convertWhereParams value]` —
the non-array cases of `convertWhereParams` are inlined here to keep the
recursion decreasing. -/
def boolGroupsOf : JVal → List JVal
  | .arr xs => convertGroups xs
  | .obj kvs => [.arr (convertWhereObj kvs)]
  | .str s =>
    [.arr ((stringEntries s).map fun p =>
      withDefaultOperator (.obj [("field", .str p.1), ("value", p.2)]))]
  | _ => [.arr ([] : List JVal)]
termination_by v => (sizeOf v, 2)

/-- The `map(convertWhereParams)` over the groups of an array-valued
boolean composition. -/
def convertGroups : List JVal → List JVal
  | [] => []
  | x :: xs => JVal.arr (convertWhereParams x) :: convertGroups xs
termination_by xs => (sizeOf xs, 0)

end

/-- `_.set({}, field, order)`: building the single sort key of one sort
clause.  Modelled for dot-separated object paths, the only shape of sort
field this module is handed (lodash would additionally turn numeric path
segments into arrays and parse bracket syntax). -/
def lodashSetPath : List String → JVal → JVal
  | [], v => v
  | k :: rest, v => .obj [(k, lodashSetPath rest v)]

/-- String form of `lodashSetPath`: split the field on dots. -/
def lodashSet (field : String) (v : JVal) : JVal :=
  lodashSetPath (jsSplit field '.') v

/-- Whether one sort clause string is malformed: empty field before the
first `:`, or an order token (after the first `:`, default `asc`) whose
lower-casing is neither `asc` nor `desc`. -/
def badSortClause (clause : String) : Bool :=
  let parts := jsSplit clause ':'
  let field := parts.headD ""
  let order := (parts.drop 1).headD "asc"
  field.length = 0 || !(["asc", "desc"].contains (asciiLower order))

/-- The `sortQuery.forEach(...)` loop of `convertSortQueryParams`: split
each clause string at `:` into `[field, order = 'asc']`, reject an empty
field or an order whose lower-casing is not `asc`/`desc`, and push
`_.set({}, field, order.toLowerCase())`.  A non-string element at this
point is a falsy non-string that escaped the earlier check, and
`clause.split` throws a `TypeError` on it. -/
def sortKeysOf : List JVal → Except JsError (List JVal)
  | [] => .ok []
  | .str clause :: rest =>
    let parts := jsSplit clause ':'
    let field := parts.headD ""
    let order := (parts.drop 1).headD "asc"
    if field.length = 0 then
      .error (.invalidInput "Field cannot be empty")
    else if !(["asc", "desc"].contains (asciiLower order)) then
      .error (.invalidInput "order can only be one of asc|desc|ASC|DESC")
    else
      match sortKeysOf rest with
      | .ok keys => .ok (lodashSet field (.str (asciiLower order)) :: keys)
      | .error e => .error e
  | _ :: _ => .error (.typeError "clause.split is not a function")

/-- `convertSortQueryParams` of the source: a string is split on commas; a
non-array is rejected; a non-string element found by
`sortQuery.find(clause => !isString(clause))` is rejected only when it is
truthy (the source guards the throw with `if (invalidClauseType)`, so a
falsy non-string element such as `0` slips through to the `forEach`, where
`clause.split` throws a `TypeError` instead). -/
def convertSortQueryParams (sortQuery : JVal) : Except JsError (List JVal) :=
  let elems : Except JsError (List JVal) :=
    match sortQuery with
    | .str s => .ok ((jsSplit s ',').map JVal.str)
    | .arr xs => .ok xs
    | other =>
      .error (.invalidInput
        ("convertSortQueryParams expected an array of string, got " ++ jsTypeof other))
  match elems with
  | .error e => .error e
  | .ok xs =>
    match xs.find? (fun e => !jsIsString e) with
    | some bad =>
      if jsTruthy bad then
        .error (.invalidInput
          ("convertSortQueryParams expected an array of string but found \""
            ++ jsTypeof bad ++ "\""))
      else
        sortKeysOf xs
    | none => sortKeysOf xs

/-- Parse an optionally signed run of decimal digits to an integer;
`none` when any character is not a digit (or the digit run is empty). -/
def decDigitsToNat : List Char → Option Nat
  | [] => none
  | cs => cs.foldl (fun acc c => do
      let n ← acc
      if c.isDigit then some (10 * n + (c.toNat - '0'.toNat)) else none)
      (some 0)

/-- Whitespace stripped by JavaScript number coercion of a string. -/
def isJsSpace (c : Char) : Bool :=
  c = ' ' || c = '\t' || c = '\n' || c = '\r'

/-- Parse a whole trimmed string as an optionally signed decimal integer. -/
def parseSignedDec (cs : List Char) : Option Int :=
  match cs with
  | '-' :: rest => (decDigitsToNat rest).map fun n => -(n : Int)
  | '+' :: rest => (decDigitsToNat rest).map fun n => (n : Int)
  | _ => (decDigitsToNat cs).map fun n => (n : Int)

/-- `_.toNumber`, restricted to the integral fragment this module accepts:
`some n` when the coercion is the integer `n`, `none` when it is `NaN` or a
non-integral number (either way `_.isInteger` rejects it and the parser
throws).  Strings are trimmed and read as optionally signed decimal
integers (hex/exponent notations, which could also coerce to integers, are
mapped to `none`; no claim exercises them); a one-element array coerces
through its element, as JavaScript coerces `[x]` through its string form. -/
def jsToNumber : JVal → Option Int
  | .num n => some n
  | .bool b => some (if b then 1 else 0)
  | .null => some 0
  | .undef => none
  | .str s =>
    let t := ((s.data.dropWhile isJsSpace).reverse.dropWhile isJsSpace).reverse
    if t.isEmpty then some 0 else parseSignedDec t
  | .arr [] => some 0
  | .arr [x] => jsToNumber x
  | .arr _ => none
  | .obj _ => none

/-- Display of the coerced number in the start/limit error messages
(`none` collapses `NaN` and non-integral coercions; it is displayed as
`NaN`, the only such case the claims touch). -/
def numDisplay : Option Int → String
  | some n => toString n
  | none => "NaN"

/-- `convertStartQueryParams` of the source: coerce to a number and require
a non-negative integer. -/
def convertStartQueryParams (startQuery : JVal) : Except JsError Int :=
  match jsToNumber startQuery with
  | some n =>
    if n < 0 then
      .error (.invalidInput
        ("convertStartQueryParams expected a positive integer got " ++ numDisplay (some n)))
    else
      .ok n
  | none =>
    .error (.invalidInput
      ("convertStartQueryParams expected a positive integer got " ++ numDisplay none))

/-- `convertLimitQueryParams` of the source: coerce to a number and require
`-1` or a non-negative integer. -/
def convertLimitQueryParams (limitQuery : JVal) : Except JsError Int :=
  match jsToNumber limitQuery with
  | some n =>
    if n ≠ -1 ∧ n < 0 then
      .error (.invalidInput
        ("convertLimitQueryParams expected a positive integer got " ++ numDisplay (some n)))
    else
      .ok n
  | none =>
    .error (.invalidInput
      ("convertLimitQueryParams expected a positive integer got " ++ numDisplay none))

/-- Modelled from the spec: `DP_PUB_STATES`, the externally-supplied
enumeration of valid publication states, lives in `./content-types`, which
is not part of the sources; the spec treats it as an injected constant set,
and the source's doc comment gives `live` and `preview` as its values. -/
def DP_PUB_STATES : List String := ["live", "preview"]

/-- `convertPublicationStateParams` of the source: membership test in
`DP_PUB_STATES` (JavaScript `includes` uses strict equality, so only the
listed strings pass), returning the one-field object to merge. -/
def convertPublicationStateParams (publicationState : JVal) :
    Except JsError (List (String × JVal)) :=
  match publicationState with
  | .str s =>
    if DP_PUB_STATES.contains s then
      .ok [("publicationState", .str s)]
    else
      .error (.invalidInput
        ("convertPublicationStateParams expected a value from: "
          ++ String.intercalate ", " DP_PUB_STATES ++ ". Got " ++ s ++ " instead"))
  | other =>
    .error (.invalidInput
      ("convertPublicationStateParams expected a value from: "
        ++ String.intercalate ", " DP_PUB_STATES ++ ". Got " ++ jsTypeof other ++ " instead"))

/-- The name a binding is stored under by `convertExtraRootParams`:
`_.startsWith(key, '_')` holds exactly when the first character is an
underscore, and `key.slice(1)` drops it. -/
def extraRootKey (k : String) : String :=
  match k.data with
  | c :: rest => if c = '_' ∧ ¬ (QUERY_OPERATORS.contains k) then String.mk rest else k
  | [] => k

/-- The `reduce` loop of `convertExtraRootParams`, with its accumulator
object explicit. -/
def convertExtraRootParamsFrom (acc : List (String × JVal)) :
    List (String × JVal) → List (String × JVal)
  | [] => acc
  | (k, v) :: rest => convertExtraRootParamsFrom (jsSet acc (extraRootKey k) v) rest

/-- `convertExtraRootParams` of the source: strip one leading underscore
from every key that is not one of the `QUERY_OPERATORS`, rebuilding the
object binding by binding. -/
def convertExtraRootParams (params : List (String × JVal)) : List (String × JVal) :=
  convertExtraRootParamsFrom [] params

/-- The `where` list `convertRestQueryParams` assembles for a non-empty
params object: the extra-root clauses (when any extra-root binding
survives the omission) followed by the `_where` clauses (when `_where` is
present). -/
def whereClausesOf (params : List (String × JVal)) : List JVal :=
  let whereParams :=
    convertExtraRootParams
      (jsOmit params ["_sort", "_start", "_limit", "_where", "_publicationState"])
  (if 0 < whereParams.length then convertWhereParams (.obj whereParams) else [])
    ++ (match jsGet params "_where" with
        | some w => convertWhereParams w
        | none => [])

/-- The `_sort` step of the dispatcher: parse and store under `sort` when
the key is present. -/
def applySortParam (params acc : List (String × JVal)) :
    Except JsError (List (String × JVal)) :=
  match jsGet params "_sort" with
  | some v =>
    match convertSortQueryParams v with
    | .ok keys => .ok (jsSet acc "sort" (.arr keys))
    | .error e => .error e
  | none => .ok acc

/-- The `_start` step of the dispatcher. -/
def applyStartParam (params acc : List (String × JVal)) :
    Except JsError (List (String × JVal)) :=
  match jsGet params "_start" with
  | some v =>
    match convertStartQueryParams v with
    | .ok n => .ok (jsSet acc "start" (.num n))
    | .error e => .error e
  | none => .ok acc

/-- The `_limit` step of the dispatcher. -/
def applyLimitParam (params acc : List (String × JVal)) :
    Except JsError (List (String × JVal)) :=
  match jsGet params "_limit" with
  | some v =>
    match convertLimitQueryParams v with
    | .ok n => .ok (jsSet acc "limit" (.num n))
    | .error e => .error e
  | none => .ok acc

/-- The `_publicationState` step of the dispatcher:
`Object.assign(finalParams, convertPublicationStateParams(...))`. -/
def applyPublicationStateParam (params acc : List (String × JVal)) :
    Except JsError (List (String × JVal)) :=
  match jsGet params "_publicationState" with
  | some v =>
    match convertPublicationStateParams v with
    | .ok fields => .ok (jsAssign acc fields)
    | .error e => .error e
  | none => .ok acc

/-- `convertRestQueryParams` of the source.  Both arguments are object
association lists — the `typeof params !== 'object' || params === null`
guard of the source rejects every other shape up front, so only objects
reach the body modelled here.  Seed `{start: 0, limit: 100}`, overlay the
defaults, return at once when params is empty, otherwise run the four
scalar steps in source order and assign the assembled `where` list. -/
def convertRestQueryParams (params defaults : List (String × JVal)) :
    Except JsError (List (String × JVal)) :=
  let finalParams := jsAssign [("start", JVal.num 0), ("limit", JVal.num 100)] defaults
  if params.isEmpty then .ok finalParams
  else
    match applySortParam params finalParams with
    | .error e => .error e
    | .ok p1 =>
      match applyStartParam params p1 with
      | .error e => .error e
      | .ok p2 =>
        match applyLimitParam params p2 with
        | .error e => .error e
        | .ok p3 =>
          match applyPublicationStateParam params p3 with
          | .error e => .error e
          | .ok p4 => .ok (jsSet p4 "where" (.arr (whereClausesOf params)))

/-- A result that is one of the module's own deliberate `InvalidInput`
errors (as opposed to success or a runtime `TypeError`). -/
def isInvalidInput {α : Type} (r : Except JsError α) : Prop :=
  ∃ msg, r = .error (.invalidInput msg)

/-- The value of the last binding of a key in a source object, the binding
`Object.assign` leaves in force. -/
def findLastVal : List (String × JVal) → String → Option JVal
  | [], _ => none
  | (k', v) :: rest, k =>
    match findLastVal rest k with
    | some w => some w
    | none => if k' = k then some v else none

theorem jsGet_jsSet_self (o : List (String × JVal)) (k : String) (v : JVal) :
    jsGet (jsSet o k v) k = some v := by
  induction o with
  | nil => simp [jsSet, jsGet]
  | cons kv rest ih =>
    obtain ⟨k', v'⟩ := kv
    by_cases h : k' = k <;> simp [jsSet, jsGet, h, ih]

theorem jsGet_jsSet_ne (o : List (String × JVal)) (k k' : String) (v : JVal)
    (h : k' ≠ k) : jsGet (jsSet o k v) k' = jsGet o k' := by
  have h' : ¬ (k = k') := fun hh => h hh.symm
  induction o with
  | nil => simp [jsSet, jsGet, h']
  | cons kv rest ih =>
    obtain ⟨k₀, v₀⟩ := kv
    by_cases h₀ : k₀ = k
    · simp [jsSet, jsGet, h₀, h']
    · simp [jsSet, jsGet, h₀, ih]

theorem jsGet_jsAssign (o src : List (String × JVal)) (k : String) :
    jsGet (jsAssign o src) k =
      match findLastVal src k with
      | some v => some v
      | none => jsGet o k := by
  induction src generalizing o with
  | nil => simp [jsAssign, findLastVal]
  | cons kv rest ih =>
    obtain ⟨k', v'⟩ := kv
    rw [jsAssign, ih]
    rcases h : findLastVal rest k with _ | w
    · by_cases hk : k' = k
      · subst hk
        simp [findLastVal, h, jsGet_jsSet_self]
      · simp [findLastVal, h, hk, jsGet_jsSet_ne _ _ _ _ (Ne.symm hk)]
    · simp [findLastVal, h]

theorem findLastVal_mem {src : List (String × JVal)} {k : String} {v : JVal}
    (h : findLastVal src k = some v) : (k, v) ∈ src := by
  induction src with
  | nil => simp [findLastVal] at h
  | cons kv rest ih =>
    obtain ⟨k', v'⟩ := kv
    rw [findLastVal] at h
    rcases h₀ : findLastVal rest k with _ | w <;> rw [h₀] at h
    · by_cases hk : k' = k
      · subst hk
        simp at h
        simp [h]
      · simp [hk] at h
    · obtain rfl : w = v := by simpa using h
      exact List.mem_cons_of_mem _ (ih h₀)

theorem jsSet_ne_nil (o : List (String × JVal)) (k : String) (v : JVal) :
    jsSet o k v ≠ [] := by
  cases o with
  | nil => simp [jsSet]
  | cons kv rest =>
    obtain ⟨k', v'⟩ := kv
    by_cases h : k' = k <;> simp [jsSet, h]

theorem jsGet_jsOmit_notMem (o : List (String × JVal)) (names : List String)
    (k : String) (h : k ∉ names) :
    jsGet (jsOmit o names) k = jsGet o k := by
  induction o with
  | nil => rfl
  | cons kv rest ih =>
    obtain ⟨k₀, v₀⟩ := kv
    simp only [jsOmit, List.filter_cons] at ih ⊢
    simp only [List.elem_eq_mem] at ih
    by_cases hm : k₀ ∈ names
    · have hk : ¬ (k₀ = k) := fun hh => h (hh ▸ hm)
      simp [jsGet, hm, hk, ih]
    · by_cases hk : k₀ = k <;> simp [jsGet, hm, hk, h, ih]

theorem convertWhereObj_eq_map (kvs : List (String × JVal)) :
    convertWhereObj kvs =
      kvs.map fun kv => withDefaultOperator (convertWhereClause kv.1 kv.2) := by
  induction kvs with
  | nil => simp [convertWhereObj]
  | cons kv rest ih =>
    obtain ⟨k, v⟩ := kv
    simp [convertWhereObj, ih]

theorem convertGroups_eq_map (xs : List JVal) :
    convertGroups xs = xs.map fun x => JVal.arr (convertWhereParams x) := by
  induction xs with
  | nil => simp [convertGroups]
  | cons x rest ih => simp [convertGroups, ih]

theorem convertStartQueryParams_ok {v : JVal} {n : Int}
    (h : convertStartQueryParams v = .ok n) : jsToNumber v = some n ∧ 0 ≤ n := by
  unfold convertStartQueryParams at h
  rcases hv : jsToNumber v with _ | m <;> rw [hv] at h <;> simp only [] at h
  · simp at h
  · by_cases hm : m < 0
    · rw [if_pos hm] at h
      simp at h
    · rw [if_neg hm] at h
      simp only [Except.ok.injEq] at h
      subst h
      exact ⟨rfl, by omega⟩

theorem convertLimitQueryParams_ok {v : JVal} {n : Int}
    (h : convertLimitQueryParams v = .ok n) :
    jsToNumber v = some n ∧ (n = -1 ∨ 0 ≤ n) := by
  unfold convertLimitQueryParams at h
  rcases hv : jsToNumber v with _ | m <;> rw [hv] at h <;> simp only [] at h
  · simp at h
  · by_cases hm : m ≠ -1 ∧ m < 0
    · rw [if_pos hm] at h
      simp at h
    · rw [if_neg hm] at h
      simp only [Except.ok.injEq] at h
      subst h
      exact ⟨rfl, by omega⟩

theorem applySortParam_ok_preserves {params acc p : List (String × JVal)}
    (h : applySortParam params acc = .ok p) {k : String} (hk : k ≠ "sort") :
    jsGet p k = jsGet acc k := by
  unfold applySortParam at h
  rcases hg : jsGet params "_sort" with _ | v <;> rw [hg] at h <;> simp only [] at h
  · simp only [Except.ok.injEq] at h
    subst h
    rfl
  · rcases hs : convertSortQueryParams v with e | keys <;> rw [hs] at h <;>
      simp only [] at h
    · exact absurd h (by simp)
    · simp only [Except.ok.injEq] at h
      subst h
      exact jsGet_jsSet_ne _ _ _ _ hk

theorem applyStartParam_ok_preserves {params acc p : List (String × JVal)}
    (h : applyStartParam params acc = .ok p) {k : String} (hk : k ≠ "start") :
    jsGet p k = jsGet acc k := by
  unfold applyStartParam at h
  rcases hg : jsGet params "_start" with _ | v <;> rw [hg] at h <;> simp only [] at h
  · simp only [Except.ok.injEq] at h
    subst h
    rfl
  · rcases hs : convertStartQueryParams v with e | n <;> rw [hs] at h <;>
      simp only [] at h
    · exact absurd h (by simp)
    · simp only [Except.ok.injEq] at h
      subst h
      exact jsGet_jsSet_ne _ _ _ _ hk

theorem applyStartParam_ok_start {params acc p : List (String × JVal)}
    (h : applyStartParam params acc = .ok p) :
    jsGet p "start" = jsGet acc "start"
      ∨ ∃ n : Int, 0 ≤ n ∧ jsGet p "start" = some (.num n) := by
  unfold applyStartParam at h
  rcases hg : jsGet params "_start" with _ | v <;> rw [hg] at h <;> simp only [] at h
  · simp only [Except.ok.injEq] at h
    subst h
    exact Or.inl rfl
  · rcases hs : convertStartQueryParams v with e | n <;> rw [hs] at h <;>
      simp only [] at h
    · exact absurd h (by simp)
    · simp only [Except.ok.injEq] at h
      subst h
      exact Or.inr ⟨n, (convertStartQueryParams_ok hs).2, jsGet_jsSet_self _ _ _⟩

theorem applyLimitParam_ok_preserves {params acc p : List (String × JVal)}
    (h : applyLimitParam params acc = .ok p) {k : String} (hk : k ≠ "limit") :
    jsGet p k = jsGet acc k := by
  unfold applyLimitParam at h
  rcases hg : jsGet params "_limit" with _ | v <;> rw [hg] at h <;> simp only [] at h
  · simp only [Except.ok.injEq] at h
    subst h
    rfl
  · rcases hs : convertLimitQueryParams v with e | n <;> rw [hs] at h <;>
      simp only [] at h
    · exact absurd h (by simp)
    · simp only [Except.ok.injEq] at h
      subst h
      exact jsGet_jsSet_ne _ _ _ _ hk

theorem applyLimitParam_ok_limit {params acc p : List (String × JVal)}
    (h : applyLimitParam params acc = .ok p) :
    jsGet p "limit" = jsGet acc "limit"
      ∨ ∃ n : Int, (n = -1 ∨ 0 ≤ n) ∧ jsGet p "limit" = some (.num n) := by
  unfold applyLimitParam at h
  rcases hg : jsGet params "_limit" with _ | v <;> rw [hg] at h <;> simp only [] at h
  · simp only [Except.ok.injEq] at h
    subst h
    exact Or.inl rfl
  · rcases hs : convertLimitQueryParams v with e | n <;> rw [hs] at h <;>
      simp only [] at h
    · exact absurd h (by simp)
    · simp only [Except.ok.injEq] at h
      subst h
      exact Or.inr ⟨n, (convertLimitQueryParams_ok hs).2, jsGet_jsSet_self _ _ _⟩

theorem applyPublicationStateParam_ok_preserves {params acc p : List (String × JVal)}
    (h : applyPublicationStateParam params acc = .ok p) {k : String}
    (hk : k ≠ "publicationState") : jsGet p k = jsGet acc k := by
  unfold applyPublicationStateParam at h
  rcases hg : jsGet params "_publicationState" with _ | v <;> rw [hg] at h <;>
    simp only [] at h
  · simp only [Except.ok.injEq] at h
    subst h
    rfl
  · unfold convertPublicationStateParams at h
    rcases v with _ | _ | b | n | s | xs | kvs <;> simp only [] at h
    · exact absurd h (by simp)
    · exact absurd h (by simp)
    · exact absurd h (by simp)
    · exact absurd h (by simp)
    · by_cases hs : DP_PUB_STATES.contains s
      · rw [if_pos hs] at h
        simp only [] at h
        simp only [Except.ok.injEq] at h
        subst h
        rw [jsGet_jsAssign]
        have hne : ¬ ("publicationState" = k) := fun hh => hk hh.symm
        simp [findLastVal, hne]
      · rw [if_neg hs] at h
        exact absurd h (by simp)
    · exact absurd h (by simp)
    · exact absurd h (by simp)

/-- For a non-empty params object, a successful conversion ends by
assigning the assembled `where` list; everything else about the result is
reached through the four scalar steps. -/
theorem convertRestQueryParams_ok_structure
    {params defaults o : List (String × JVal)}
    (hne : params ≠ []) (h : convertRestQueryParams params defaults = .ok o) :
    ∃ p1 p2 p3 p4,
      applySortParam params
          (jsAssign [("start", JVal.num 0), ("limit", JVal.num 100)] defaults) = .ok p1
      ∧ applyStartParam params p1 = .ok p2
      ∧ applyLimitParam params p2 = .ok p3
      ∧ applyPublicationStateParam params p3 = .ok p4
      ∧ o = jsSet p4 "where" (.arr (whereClausesOf params)) := by
  unfold convertRestQueryParams at h
  rw [if_neg (by simpa [List.isEmpty_iff] using hne)] at h
  rcases h1 : applySortParam params
      (jsAssign [("start", JVal.num 0), ("limit", JVal.num 100)] defaults)
    with e | p1 <;> rw [h1] at h <;> simp only [] at h
  · exact absurd h (by simp)
  rcases h2 : applyStartParam params p1 with e | p2 <;> rw [h2] at h <;>
    simp only [] at h
  · exact absurd h (by simp)
  rcases h3 : applyLimitParam params p2 with e | p3 <;> rw [h3] at h <;>
    simp only [] at h
  · exact absurd h (by simp)
  rcases h4 : applyPublicationStateParam params p3 with e | p4 <;> rw [h4] at h <;>
    simp only [] at h
  · exact absurd h (by simp)
  simp only [Except.ok.injEq] at h
  exact ⟨p1, p2, p3, p4, rfl, h2, h3, h4, h.symm⟩


/-- A successful conversion of a non-empty params object binds `where` to
exactly the assembled clause list. -/
theorem convert_ok_where {params defaults o : List (String × JVal)}
    (hne : params ≠ []) (h : convertRestQueryParams params defaults = .ok o) :
    jsGet o "where" = some (.arr (whereClausesOf params)) := by
  obtain ⟨p1, p2, p3, p4, _, _, _, _, rfl⟩ :=
    convertRestQueryParams_ok_structure hne h
  exact jsGet_jsSet_self _ _ _

/-- The operators a produced clause can mention: the REST vocabulary (which
contains the default `eq`) together with the two boolean composition
operators. -/
def producedOperators : List String := VALID_REST_OPERATORS ++ BOOLEAN_OPERATORS

/-- Every operator mentioned by a clause object lies in `S`, descending
into the parsed sub-groups of a boolean-composition clause (a non-boolean
operator carries raw data as its value, which is not descended into). -/
inductive EveryOperatorIn (S : List String) : JVal → Prop where
  | mk (f : JVal) (op : String) (v : JVal)
      (hop : op ∈ S)
      (hnest : op ∈ BOOLEAN_OPERATORS →
        ∀ gs, v = JVal.arr gs → ∀ g ∈ gs, ∀ cs, g = JVal.arr cs →
          ∀ c ∈ cs, EveryOperatorIn S c) :
      EveryOperatorIn S (.obj [("field", f), ("operator", .str op), ("value", v)])

theorem withDefaultOperator_eqField (k : String) (w : JVal) :
    withDefaultOperator (.obj [("field", .str k), ("value", w)]) =
      .obj [("field", .str k), ("operator", .str "eq"), ("value", w)] := by
  cases w <;> simp [withDefaultOperator, jsField, jsGet]

theorem withDefaultOperator_three (f : JVal) (op : String) (w : JVal) :
    withDefaultOperator (.obj [("field", f), ("operator", .str op), ("value", w)]) =
      .obj [("field", f), ("operator", .str op), ("value", w)] := by
  cases f <;> cases w <;> simp [withDefaultOperator, jsField, jsGet]

theorem eqClauseOps {S : List String} (h : "eq" ∈ S) (k : String) (w : JVal) :
    EveryOperatorIn S (.obj [("field", .str k), ("operator", .str "eq"), ("value", w)]) := by
  refine .mk _ _ _ h ?_
  intro hb
  exact absurd hb (by decide)

theorem not_boolean_of_rest {s : String} (h : s ∈ VALID_REST_OPERATORS) :
    s ∉ BOOLEAN_OPERATORS := by
  intro hb
  rcases (by simpa [BOOLEAN_OPERATORS] using hb : s = "or" ∨ s = "and") with rfl | rfl <;>
    simp [VALID_REST_OPERATORS] at h

theorem mem_convertWhereParamsList {c : JVal} {xs : List JVal} :
    c ∈ convertWhereParamsList xs ↔ ∃ x ∈ xs, c ∈ convertWhereParams x := by
  induction xs with
  | nil => simp [convertWhereParamsList]
  | cons x rest ih =>
    simp only [convertWhereParamsList, List.mem_append, ih, List.mem_cons]
    constructor
    · rintro (h | ⟨y, hy, hc⟩)
      · exact ⟨x, Or.inl rfl, h⟩
      · exact ⟨y, Or.inr hy, hc⟩
    · rintro ⟨y, rfl | hy, hc⟩
      · exact Or.inl hc
      · exact Or.inr ⟨y, hy, hc⟩

/-- Bounded-size form of the operator invariant: every clause produced by
`convertWhereParams` only mentions operators from `producedOperators`,
including inside the sub-groups of boolean compositions. -/
theorem whereParamsOpsAux :
    ∀ n : Nat, ∀ v : JVal, sizeOf v ≤ n →
      ∀ c ∈ convertWhereParams v, EveryOperatorIn producedOperators c := by
  intro n
  induction n with
  | zero =>
    intro v hv c hc
    exfalso
    cases v <;> simp at hv
  | succ n ih =>
    have clauseOps : ∀ k : String, ∀ w : JVal, sizeOf w ≤ n + 1 →
        (∀ u : JVal, sizeOf u ≤ sizeOf w → ∀ c ∈ convertWhereParams u,
          EveryOperatorIn producedOperators c) →
        EveryOperatorIn producedOperators (withDefaultOperator (convertWhereClause k w)) := by
      intro k w hw ihw
      rw [convertWhereClause]
      cases hsplit : lastUnderscore k with
      | none =>
        simp only []
        rw [withDefaultOperator_eqField]
        exact eqClauseOps (by decide) _ _
      | some p =>
        obtain ⟨front, back⟩ := p
        simp only []
        by_cases hb : (BOOLEAN_OPERATORS.contains back && (front = "")) = true
        · rw [if_pos hb, withDefaultOperator_three]
          have hbop : back ∈ BOOLEAN_OPERATORS := by
            have := (Bool.and_eq_true _ _).mp hb |>.1
            simpa [List.elem_eq_mem] using this
          refine .mk _ _ _ (by simp [producedOperators, hbop]) ?_
          intro _ gs hgs g hg cs hcs c hc
          obtain rfl : gs = boolGroupsOf w := by
            injection hgs.symm
          cases w with
          | arr xs =>
            rw [boolGroupsOf, convertGroups_eq_map] at hg
            obtain ⟨x, hx, rfl⟩ := List.mem_map.mp hg
            obtain rfl : cs = convertWhereParams x := by injection hcs.symm
            have hxle : sizeOf x ≤ sizeOf (JVal.arr xs) := by
              have := List.sizeOf_lt_of_mem hx
              simp only [JVal.arr.sizeOf_spec]
              omega
            exact ihw x hxle c hc
          | obj kvs =>
            rw [boolGroupsOf] at hg
            simp only [List.mem_singleton] at hg
            subst hg
            obtain rfl : cs = convertWhereObj kvs := by injection hcs.symm
            have : convertWhereParams (.obj kvs) = convertWhereObj kvs := by
              rw [convertWhereParams]
            exact ihw (.obj kvs) le_rfl c (this ▸ hc)
          | str s =>
            rw [boolGroupsOf] at hg
            simp only [List.mem_singleton] at hg
            subst hg
            obtain rfl :
                cs = (stringEntries s).map (fun p =>
                  withDefaultOperator (.obj [("field", .str p.1), ("value", p.2)])) := by
              injection hcs.symm
            have : convertWhereParams (.str s) =
                (stringEntries s).map (fun p =>
                  withDefaultOperator (.obj [("field", .str p.1), ("value", p.2)])) := by
              rw [convertWhereParams]
            exact ihw (.str s) le_rfl c (this ▸ hc)
          | undef =>
            simp only [boolGroupsOf] at hg
            simp only [List.mem_singleton] at hg
            subst hg
            obtain rfl : cs = [] := by injection hcs.symm
            simp at hc
          | null =>
            simp only [boolGroupsOf] at hg
            simp only [List.mem_singleton] at hg
            subst hg
            obtain rfl : cs = [] := by injection hcs.symm
            simp at hc
          | bool b =>
            simp only [boolGroupsOf] at hg
            simp only [List.mem_singleton] at hg
            subst hg
            obtain rfl : cs = [] := by injection hcs.symm
            simp at hc
          | num m =>
            simp only [boolGroupsOf] at hg
            simp only [List.mem_singleton] at hg
            subst hg
            obtain rfl : cs = [] := by injection hcs.symm
            simp at hc
        · rw [if_neg hb]
          by_cases hv : (!(VALID_REST_OPERATORS.contains back)) = true
          · rw [if_pos hv, withDefaultOperator_eqField]
            exact eqClauseOps (by decide) _ _
          · rw [if_neg hv, withDefaultOperator_three]
            have hrest : back ∈ VALID_REST_OPERATORS := by
              simp only [Bool.not_eq_true', Bool.not_eq_false] at hv
              simpa [List.elem_eq_mem] using hv
            refine .mk _ _ _ (by simp [producedOperators, hrest]) ?_
            intro hbop
            exact absurd hbop (not_boolean_of_rest hrest)
    intro v hv c hc
    cases v with
    | undef => simp [convertWhereParams] at hc
    | null => simp [convertWhereParams] at hc
    | bool b => simp [convertWhereParams] at hc
    | num m => simp [convertWhereParams] at hc
    | str s =>
      rw [convertWhereParams] at hc
      obtain ⟨p, hp, rfl⟩ := List.mem_map.mp hc
      rw [withDefaultOperator_eqField]
      exact eqClauseOps (by decide) _ _
    | arr xs =>
      rw [convertWhereParams] at hc
      obtain ⟨x, hx, hcx⟩ := mem_convertWhereParamsList.mp hc
      have hxn : sizeOf x ≤ n := by
        have h1 := List.sizeOf_lt_of_mem hx
        simp only [JVal.arr.sizeOf_spec] at hv
        omega
      exact ih x hxn c hcx
    | obj kvs =>
      rw [convertWhereParams, convertWhereObj_eq_map] at hc
      obtain ⟨⟨k, w⟩, hkw, rfl⟩ := List.mem_map.mp hc
      have hwn : sizeOf w ≤ n := by
        have h1 := List.sizeOf_lt_of_mem hkw
        have h2 : sizeOf (k, w) = 1 + sizeOf k + sizeOf w := by simp
        simp only [JVal.obj.sizeOf_spec] at hv
        have h3 : 1 ≤ sizeOf k := by
          cases k
          simp
        omega
      exact clauseOps k w (by omega) fun u hu c hc => ih u (by omega) c hc

/-- The operator invariant, unbounded form. -/
theorem whereParamsOps (v : JVal) :
    ∀ c ∈ convertWhereParams v, EveryOperatorIn producedOperators c :=
  whereParamsOpsAux (sizeOf v) v le_rfl

/-- The `forEach` loop raises `InvalidInput` exactly when a malformed
clause string occurs among the leading all-string elements (a non-string
element reached first raises a `TypeError` instead, and processing never
gets past it). -/
theorem sortKeysOf_invalid_iff (elems : List JVal) :
    isInvalidInput (sortKeysOf elems) ↔
      ∃ s, JVal.str s ∈ elems.takeWhile jsIsString ∧ badSortClause s = true := by
  induction elems with
  | nil =>
    simp [sortKeysOf, isInvalidInput]
  | cons x rest ih =>
    cases x with
    | str s =>
      rw [sortKeysOf]
      simp only [List.takeWhile_cons, jsIsString, if_pos]
      by_cases hf : ((jsSplit s ':').headD "").length = 0
      · rw [if_pos hf]
        constructor
        · intro _
          refine ⟨s, by simp, ?_⟩
          simp only [badSortClause]
          rw [Bool.or_eq_true]
          exact Or.inl (by simpa using hf)
        · intro _
          exact ⟨_, rfl⟩
      · rw [if_neg hf]
        by_cases ho :
            (!(["asc", "desc"].contains (asciiLower (((jsSplit s ':').drop 1).headD "asc")))) = true
        · rw [if_pos ho]
          constructor
          · intro _
            refine ⟨s, by simp, ?_⟩
            simp only [badSortClause]
            rw [Bool.or_eq_true]
            exact Or.inr (by simpa using ho)
          · intro _
            exact ⟨_, rfl⟩
        · rw [if_neg ho]
          have hbad : badSortClause s = false := by
            simp only [badSortClause]
            rw [Bool.or_eq_false_iff]
            exact ⟨by simpa using hf, by simpa using ho⟩
          constructor
          · intro hinv
            obtain ⟨msg, hmsg⟩ := hinv
            rcases hres : sortKeysOf rest with e | keys <;> rw [hres] at hmsg
            · obtain ⟨s', hs', hbad'⟩ := ih.mp ⟨msg, by rw [hres]; injection hmsg with h; rw [h]⟩
              exact ⟨s', by simp [hs'], hbad'⟩
            · simp at hmsg
          · rintro ⟨s', hs', hbad'⟩
            simp only [List.mem_cons] at hs'
            rcases hs' with heq | hs'
            · obtain rfl : s' = s := by injection heq
              rw [hbad'] at hbad
              exact absurd hbad (by simp)
            · obtain ⟨msg, hmsg⟩ := ih.mpr ⟨s', hs', hbad'⟩
              rw [hmsg]
              exact ⟨msg, rfl⟩
    | undef =>
      simp [sortKeysOf, isInvalidInput, List.takeWhile_cons, jsIsString]
    | null =>
      simp [sortKeysOf, isInvalidInput, List.takeWhile_cons, jsIsString]
    | bool b =>
      simp [sortKeysOf, isInvalidInput, List.takeWhile_cons, jsIsString]
    | num m =>
      simp [sortKeysOf, isInvalidInput, List.takeWhile_cons, jsIsString]
    | arr xs =>
      simp [sortKeysOf, isInvalidInput, List.takeWhile_cons, jsIsString]
    | obj kvs =>
      simp [sortKeysOf, isInvalidInput, List.takeWhile_cons, jsIsString]

theorem jsGet_eq_none_of_notMem {o : List (String × JVal)} {k : String}
    (h : k ∉ o.map Prod.fst) : jsGet o k = none := by
  induction o with
  | nil => rfl
  | cons kv rest ih =>
    obtain ⟨k', v⟩ := kv
    simp only [List.map_cons, List.mem_cons] at h
    push_neg at h
    have h1 : ¬ (k' = k) := fun hh => h.1 hh.symm
    simp [jsGet, h1, ih h.2]

theorem convertExtraRootParamsFrom_eq (q : List (String × JVal))
    (acc : List (String × JVal)) :
    convertExtraRootParamsFrom acc q =
      jsAssign acc (q.map fun kv => (extraRootKey kv.1, kv.2)) := by
  induction q generalizing acc with
  | nil => rfl
  | cons kv rest ih =>
    obtain ⟨k, v⟩ := kv
    simp [convertExtraRootParamsFrom, jsAssign, ih]

theorem convertExtraRootParamsFrom_ne_nil (q acc : List (String × JVal))
    (h : acc ≠ []) : convertExtraRootParamsFrom acc q ≠ [] := by
  induction q generalizing acc with
  | nil => exact h
  | cons kv rest ih =>
    obtain ⟨k, v⟩ := kv
    exact ih _ (jsSet_ne_nil _ _ _)

theorem convertExtraRootParams_ne_nil {q : List (String × JVal)} (h : q ≠ []) :
    convertExtraRootParams q ≠ [] := by
  cases q with
  | nil => exact absurd rfl h
  | cons kv rest =>
    obtain ⟨k, v⟩ := kv
    rw [convertExtraRootParams, convertExtraRootParamsFrom]
    exact convertExtraRootParamsFrom_ne_nil _ _ (jsSet_ne_nil _ _ _)

theorem extraRootKey_queryOp {k : String} (h : k ∈ QUERY_OPERATORS) :
    extraRootKey k = k := by
  have hc : QUERY_OPERATORS.contains k = true := by
    simpa [List.elem_eq_mem] using h
  unfold extraRootKey
  cases hd : k.data with
  | nil => rfl
  | cons c rest =>
    simp only []
    rw [if_neg]
    rintro ⟨-, hq⟩
    exact hq hc

theorem extraRootKey_eq_of {k' k : String} (h : extraRootKey k' = k) :
    k' = k ∨ k'.data = '_' :: k.data := by
  unfold extraRootKey at h
  cases hd : k'.data with
  | nil => rw [hd] at h; exact Or.inl h
  | cons c rest =>
    rw [hd] at h
    simp only [] at h
    by_cases hc : c = '_' ∧ ¬ (QUERY_OPERATORS.contains k')
    · rw [if_pos hc] at h
      right
      rw [hc.1, ← h]
    · rw [if_neg hc] at h
      exact Or.inl h

/-- On a key from `QUERY_OPERATORS`, with distinct keys and no key that
strips down to it, `convertExtraRootParams` is transparent: the binding
comes through unchanged. -/
theorem jsGet_convertExtraRootParams_queryOp (q : List (String × JVal))
    (k : String) (hk : k ∈ QUERY_OPERATORS)
    (hnodup : (q.map Prod.fst).Nodup)
    (hnc : ∀ kv ∈ q, kv.1.data ≠ '_' :: k.data) :
    jsGet (convertExtraRootParams q) k = jsGet q k := by
  have main : ∀ q : List (String × JVal), (q.map Prod.fst).Nodup →
      (∀ kv ∈ q, kv.1.data ≠ '_' :: k.data) →
      findLastVal (q.map fun kv => (extraRootKey kv.1, kv.2)) k = jsGet q k := by
    intro q
    induction q with
    | nil => intro _ _; rfl
    | cons kv rest ih =>
      obtain ⟨k', v⟩ := kv
      intro hnd hnc
      simp only [List.map_cons, List.nodup_cons] at hnd
      have ihr := ih hnd.2 fun kv hkv => hnc kv (List.mem_cons_of_mem _ hkv)
      simp only [List.map_cons, findLastVal, ihr]
      by_cases hk' : k' = k
      · subst hk'
        have : jsGet rest k' = none :=
          jsGet_eq_none_of_notMem hnd.1
        rw [this]
        simp [jsGet, extraRootKey_queryOp hk]
      · have : extraRootKey k' ≠ k := by
          intro he
          rcases extraRootKey_eq_of he with h1 | h1
          · exact hk' h1
          · exact hnc (k', v) (by simp) h1
        rcases hr : jsGet rest k with _ | w
        · simp [jsGet, hk', this, hr]
        · simp [jsGet, hk', hr]
  rw [convertExtraRootParams, convertExtraRootParamsFrom_eq, jsGet_jsAssign,
    main q hnodup hnc]
  rcases h : jsGet q k with _ | w <;> simp [jsGet]

/-- Evaluation of the `_where`-with-`_or` example through the whole
dispatcher: each sub-clause of the boolean composition carries the
defaulted operator `eq`. -/
theorem whereOrExampleEval :
    convertRestQueryParams
        [("_where", .obj [("_or", .arr [.obj [("a", .num 1)], .obj [("b", .num 2)]])])] [] =
      .ok [("start", .num 0), ("limit", .num 100),
           ("where", .arr [.obj [("field", .null), ("operator", .str "or"),
              ("value", .arr [
                .arr [.obj [("field", .str "a"), ("operator", .str "eq"), ("value", .num 1)]],
                .arr [.obj [("field", .str "b"), ("operator", .str "eq"), ("value", .num 2)]]])]])] := by
  simp [convertRestQueryParams, applySortParam, applyStartParam, applyLimitParam,
    applyPublicationStateParam, jsGet, jsSet, jsAssign, jsOmit, whereClausesOf,
    convertExtraRootParams, convertExtraRootParamsFrom, extraRootKey,
    convertWhereParams, convertWhereObj, convertWhereClause, convertWhereParamsList,
    boolGroupsOf, convertGroups, withDefaultOperator, jsField,
    lastUnderscore, splitAtLastUnderscoreAux, QUERY_OPERATORS, BOOLEAN_OPERATORS,
    VALID_REST_OPERATORS, List.filter]

/-- Evaluation of a top-level `_or` example through the whole dispatcher:
the key survives extra-root stripping and produces a boolean clause. -/
theorem topOrExampleEval :
    convertRestQueryParams [("_or", .arr [.obj [("a", .num 1)]])] [] =
      .ok [("start", .num 0), ("limit", .num 100),
           ("where", .arr [.obj [("field", .null), ("operator", .str "or"),
              ("value", .arr [
                .arr [.obj [("field", .str "a"), ("operator", .str "eq"),
                            ("value", .num 1)]]])]])] := by
  simp [convertRestQueryParams, applySortParam, applyStartParam, applyLimitParam,
    applyPublicationStateParam, jsGet, jsSet, jsAssign, jsOmit, whereClausesOf,
    convertExtraRootParams, convertExtraRootParamsFrom, extraRootKey,
    convertWhereParams, convertWhereObj, convertWhereClause, convertWhereParamsList,
    boolGroupsOf, convertGroups, withDefaultOperator, jsField,
    lastUnderscore, splitAtLastUnderscoreAux, QUERY_OPERATORS, BOOLEAN_OPERATORS,
    VALID_REST_OPERATORS, List.filter]

/-- Claim C1 (counterexample): `convert({}, {})` does not return a
descriptor with a `where` binding at all — the claimed result
`{start: 0, limit: 100, where: []}` carries one, so the claimed equality
fails. -/
theorem claim1_counterexample :
    ¬ ∃ o, convertRestQueryParams [] [] = .ok o ∧ jsGet o "where" = some (.arr []) := by
  rintro ⟨o, h1, h2⟩
  have hval : convertRestQueryParams [] [] =
      .ok [("start", JVal.num 0), ("limit", JVal.num 100)] := rfl
  rw [hval] at h1
  obtain rfl : [("start", JVal.num 0), ("limit", JVal.num 100)] = o := by
    simpa using h1
  simp [jsGet] at h2

/-- Claim C1 (amended): calling `convert` with an empty raw-params mapping
and an empty defaults mapping returns the seeded descriptor
`{start: 0, limit: 100}` via the early exit, with no `where`, no `sort`
and no `publicationState` key. -/
theorem claim1_theorem :
    convertRestQueryParams [] [] = .ok [("start", JVal.num 0), ("limit", JVal.num 100)]
    ∧ jsGet [("start", JVal.num 0), ("limit", JVal.num 100)] "sort" = none
    ∧ jsGet [("start", JVal.num 0), ("limit", JVal.num 100)] "publicationState" = none
    ∧ jsGet [("start", JVal.num 0), ("limit", JVal.num 100)] "where" = none := by
  refine ⟨rfl, ?_, ?_, ?_⟩ <;> simp [jsGet]

/-- Claim C8: the sort parser gives the same result on the comma-separated
string `"id:asc,price:desc"` as on the array `["id:asc", "price:desc"]`,
both equal to `[{id: "asc"}, {price: "desc"}]`, and `["id"]` defaults to
ascending order. -/
theorem claim8_theorem :
    convertSortQueryParams (.str "id:asc,price:desc")
        = convertSortQueryParams (.arr [.str "id:asc", .str "price:desc"])
    ∧ convertSortQueryParams (.str "id:asc,price:desc")
        = .ok [.obj [("id", .str "asc")], .obj [("price", .str "desc")]]
    ∧ convertSortQueryParams (.arr [.str "id"]) = .ok [.obj [("id", .str "asc")]] :=
  ⟨rfl, rfl, rfl⟩

/-- Claim C4 (counterexample): the nested sub-clauses of a parsed `_or`
group are not the bare `{field, value}` objects of the claim — each one
carries the defaulted `operator: "eq"` binding, so the claimed `where`
list is not what `convert` produces. -/
theorem claim4_counterexample :
    ¬ ∃ o, convertRestQueryParams
        [("_where", .obj [("_or", .arr [.obj [("a", .num 1)], .obj [("b", .num 2)]])])] []
          = .ok o
      ∧ jsGet o "where" = some (.arr [.obj [("field", .null), ("operator", .str "or"),
          ("value", .arr [.arr [.obj [("field", .str "a"), ("value", .num 1)]],
                          .arr [.obj [("field", .str "b"), ("value", .num 2)]]])]]) := by
  rintro ⟨o, h1, h2⟩
  rw [whereOrExampleEval] at h1
  obtain rfl :
      [("start", JVal.num 0), ("limit", JVal.num 100),
       ("where", JVal.arr [.obj [("field", .null), ("operator", .str "or"),
          ("value", .arr [
            .arr [.obj [("field", .str "a"), ("operator", .str "eq"), ("value", .num 1)]],
            .arr [.obj [("field", .str "b"), ("operator", .str "eq"), ("value", .num 2)]]])]])]
        = o := by
    simpa using h1
  simp [jsGet] at h2

/-- Claim C4 (amended): `{_or: [{a: 1}, {b: 2}]}` passed as `_where`
yields exactly one clause `{field: null, operator: "or", value: [[...]]}`,
whose value is the list of independently re-parsed sub-groups — each
sub-clause carrying the defaulted `operator: "eq"`. -/
theorem claim4_theorem :
    convertRestQueryParams
        [("_where", .obj [("_or", .arr [.obj [("a", .num 1)], .obj [("b", .num 2)]])])] [] =
      .ok [("start", .num 0), ("limit", .num 100),
           ("where", .arr [.obj [("field", .null), ("operator", .str "or"),
              ("value", .arr [
                .arr [.obj [("field", .str "a"), ("operator", .str "eq"), ("value", .num 1)]],
                .arr [.obj [("field", .str "b"), ("operator", .str "eq"),
                            ("value", .num 2)]]])]])] :=
  whereOrExampleEval

/-- Claim C2 (counterexample): a top-level `_or` produces a
boolean-composition clause whose `operator` is `"or"`, which is not in
`VALID_REST_OPERATORS`, so the claimed vocabulary excludes a clause that
`convert` really returns in its `where` list. -/
theorem claim2_counterexample :
    ¬ ∀ o ws, convertRestQueryParams [("_or", .arr [.obj [("a", .num 1)]])] [] = .ok o →
        jsGet o "where" = some (.arr ws) →
        ∀ c ∈ ws, EveryOperatorIn VALID_REST_OPERATORS c := by
  intro h
  have hc := h
      [("start", .num 0), ("limit", .num 100),
       ("where", .arr [.obj [("field", .null), ("operator", .str "or"),
          ("value", .arr [.arr [.obj [("field", .str "a"), ("operator", .str "eq"),
            ("value", .num 1)]]])]])]
      [.obj [("field", .null), ("operator", .str "or"),
        ("value", .arr [.arr [.obj [("field", .str "a"), ("operator", .str "eq"),
          ("value", .num 1)]]])]]
      topOrExampleEval (by simp [jsGet])
      (.obj [("field", .null), ("operator", .str "or"),
        ("value", .arr [.arr [.obj [("field", .str "a"), ("operator", .str "eq"),
          ("value", .num 1)]]])]) (by simp)
  cases hc
  next hop hnest => simp [VALID_REST_OPERATORS] at hop

/-- Claim C2 (amended): for every descriptor produced from a non-empty
raw-params mapping, every clause of its `where` list — including the
clauses nested inside boolean-composition groups — has an operator in the
fixed vocabulary (whose first member is the default `eq`) or one of the
boolean composition operators `or`/`and`. -/
theorem claim2_theorem (params defaults o : List (String × JVal)) (ws : List JVal)
    (hne : params ≠ []) (hok : convertRestQueryParams params defaults = .ok o)
    (hw : jsGet o "where" = some (.arr ws)) :
    ∀ c ∈ ws, EveryOperatorIn producedOperators c := by
  have h1 := convert_ok_where hne hok
  rw [h1] at hw
  obtain rfl : whereClausesOf params = ws := by simpa using hw
  intro c hc
  unfold whereClausesOf at hc
  simp only [List.mem_append] at hc
  rcases hc with hc | hc
  · by_cases hlen : 0 <
        (convertExtraRootParams
          (jsOmit params ["_sort", "_start", "_limit", "_where", "_publicationState"])).length
    · rw [if_pos hlen] at hc
      exact whereParamsOps _ c hc
    · rw [if_neg hlen] at hc
      simp at hc
  · rcases hW : jsGet params "_where" with _ | w <;> rw [hW] at hc <;> simp only [] at hc
    · simp at hc
    · exact whereParamsOps w c hc

/-- Claim C2 witness: a plain equality filter `{a: 1}` produces a clause
whose operator is in the allowed set. -/
theorem claim2_witness :
    EveryOperatorIn producedOperators
      (.obj [("field", .str "a"), ("operator", .str "eq"), ("value", .num 1)]) := by
  have heval : convertRestQueryParams [("a", .num 1)] [] =
      .ok [("start", .num 0), ("limit", .num 100),
           ("where", .arr [.obj [("field", .str "a"), ("operator", .str "eq"),
              ("value", .num 1)]])] := by
    simp [convertRestQueryParams, applySortParam, applyStartParam, applyLimitParam,
      applyPublicationStateParam, jsGet, jsSet, jsAssign, jsOmit, whereClausesOf,
      convertExtraRootParams, convertExtraRootParamsFrom, extraRootKey,
      convertWhereParams, convertWhereObj, convertWhereClause, convertWhereParamsList,
      boolGroupsOf, convertGroups, withDefaultOperator, jsField,
      lastUnderscore, splitAtLastUnderscoreAux, QUERY_OPERATORS, BOOLEAN_OPERATORS,
      VALID_REST_OPERATORS, List.filter]
  exact claim2_theorem [("a", .num 1)] []
    [("start", .num 0), ("limit", .num 100),
     ("where", .arr [.obj [("field", .str "a"), ("operator", .str "eq"), ("value", .num 1)]])]
    [.obj [("field", .str "a"), ("operator", .str "eq"), ("value", .num 1)]]
    (by simp) heval (by simp [jsGet]) _ (by simp)

theorem string_eq_of_data_eq {a b : String} (h : a.data = b.data) : a = b :=
  congrArg String.mk h

theorem splitAtLastUnderscoreAux_eq {cs f b : List Char}
    (h : splitAtLastUnderscoreAux cs = some (f, b)) : cs = f ++ '_' :: b := by
  induction cs generalizing f b with
  | nil => simp [splitAtLastUnderscoreAux] at h
  | cons c rest ih =>
    rw [splitAtLastUnderscoreAux] at h
    rcases hr : splitAtLastUnderscoreAux rest with _ | p <;> rw [hr] at h <;>
      simp only [] at h
    · by_cases hc : c = '_'
      · rw [if_pos hc] at h
        simp only [Option.some.injEq, Prod.mk.injEq] at h
        obtain ⟨rfl, rfl⟩ := h
        rw [hc]
        rfl
      · rw [if_neg hc] at h
        simp at h
    · obtain ⟨f', b'⟩ := p
      simp only [Option.some.injEq, Prod.mk.injEq] at h
      obtain ⟨rfl, rfl⟩ := h
      have hrest := ih hr
      simp [hrest]

/-- The two halves returned by `lastUnderscore` really are the key split at
its last underscore. -/
theorem lastUnderscore_eq {k front back : String}
    (h : lastUnderscore k = some (front, back)) :
    k.data = front.data ++ '_' :: back.data := by
  unfold lastUnderscore at h
  rcases hs : splitAtLastUnderscoreAux k.data with _ | p <;> rw [hs] at h
  · simp at h
  · obtain ⟨f, b⟩ := p
    simp only [Option.map_some', Option.some.injEq, Prod.mk.injEq] at h
    obtain ⟨h1, h2⟩ := h
    rw [← h1, ← h2]
    exact splitAtLastUnderscoreAux_eq hs

/-- Claim C3: for a clause key with an underscore (and not exactly `_or` or
`_and`), a suffix in the fixed vocabulary splits the key into field and
operator, and a suffix outside the vocabulary keeps the entire key as the
field with implicit equality; `price_gte` splits and `first_name` does
not. -/
theorem claim3_theorem :
    (∀ k front back : String, ∀ v : JVal, lastUnderscore k = some (front, back) →
        k ≠ "_or" → k ≠ "_and" →
        (back ∈ VALID_REST_OPERATORS →
          convertWhereClause k v =
            .obj [("field", .str front), ("operator", .str back), ("value", v)])
        ∧ (back ∉ VALID_REST_OPERATORS →
          convertWhereClause k v = .obj [("field", .str k), ("value", v)]))
    ∧ convertWhereClause "price_gte" (.num 10) =
        .obj [("field", .str "price"), ("operator", .str "gte"), ("value", .num 10)]
    ∧ convertWhereClause "first_name" (.str "Jo") =
        .obj [("field", .str "first_name"), ("value", .str "Jo")] := by
  refine ⟨?_, ?_, ?_⟩
  · intro k front back v hsplit hor hand
    have hdata := lastUnderscore_eq hsplit
    have hboolfalse : ¬ ((BOOLEAN_OPERATORS.contains back && (front = "")) = true) := by
      intro hb
      obtain ⟨h1, h2⟩ := Bool.and_eq_true _ _ |>.mp hb
      have hmem : back ∈ BOOLEAN_OPERATORS := by simpa [List.elem_eq_mem] using h1
      have hfront : front = "" := of_decide_eq_true h2
      rw [hfront] at hdata
      rcases (by simpa [BOOLEAN_OPERATORS] using hmem : back = "or" ∨ back = "and") with
        rfl | rfl
      · exact hor (string_eq_of_data_eq (by rw [hdata]; rfl))
      · exact hand (string_eq_of_data_eq (by rw [hdata]; rfl))
    rw [convertWhereClause, hsplit]
    simp only []
    rw [if_neg hboolfalse]
    constructor
    · intro hmem
      rw [if_neg (by simpa using hmem)]
    · intro hnmem
      rw [if_pos (by simpa using hnmem)]
  · simp [convertWhereClause, lastUnderscore, splitAtLastUnderscoreAux]
    decide
  · simp [convertWhereClause, lastUnderscore, splitAtLastUnderscoreAux]
    decide

/-- Claim C3 witness: `price_gte` splits into field `price` and operator
`gte`, and `first_name` is kept whole. -/
theorem claim3_witness :
    convertWhereClause "price_gte" (.num 10) =
        .obj [("field", .str "price"), ("operator", .str "gte"), ("value", .num 10)]
    ∧ convertWhereClause "first_name" (.str "Jo") =
        .obj [("field", .str "first_name"), ("value", .str "Jo")] := by
  refine ⟨?_, ?_⟩
  · exact (claim3_theorem.1 "price_gte" "price" "gte" (.num 10) (by decide)
      (by decide) (by decide)).1 (by decide)
  · exact (claim3_theorem.1 "first_name" "first" "name" (.str "Jo") (by decide)
      (by decide) (by decide)).2 (by decide)

theorem mem_of_jsGet_eq_some {o : List (String × JVal)} {k : String} {v : JVal}
    (h : jsGet o k = some v) : (k, v) ∈ o := by
  induction o with
  | nil => simp [jsGet] at h
  | cons kv rest ih =>
    obtain ⟨k', v'⟩ := kv
    rw [jsGet] at h
    by_cases hk : k' = k
    · rw [if_pos hk] at h
      obtain rfl : v' = v := by simpa using h
      subst hk
      exact List.mem_cons_self _ _
    · rw [if_neg hk] at h
      exact List.mem_cons_of_mem _ (ih h)

/-- Claim C5: when the raw params hold both extra-root filter keys and an
explicit `_where` entry, the `where` list is exactly the extra-root
clauses, one per surviving binding in discovery order, followed by the
`_where` clauses. -/
theorem claim5_theorem (params defaults o : List (String × JVal)) (w : JVal)
    (hextra : ∃ kv ∈ params,
      kv.1 ∉ ["_sort", "_start", "_limit", "_where", "_publicationState"])
    (hwhere : jsGet params "_where" = some w)
    (hok : convertRestQueryParams params defaults = .ok o) :
    jsGet o "where" = some (.arr (
      ((convertExtraRootParams
          (jsOmit params ["_sort", "_start", "_limit", "_where", "_publicationState"])).map
        fun kv => withDefaultOperator (convertWhereClause kv.1 kv.2))
      ++ convertWhereParams w)) := by
  obtain ⟨kv, hkv, hkvn⟩ := hextra
  have hne : params ≠ [] := by
    rintro rfl
    simp at hkv
  rw [convert_ok_where hne hok]
  refine congrArg some (congrArg JVal.arr ?_)
  unfold whereClausesOf
  simp only []
  have homem : kv ∈
      jsOmit params ["_sort", "_start", "_limit", "_where", "_publicationState"] :=
    List.mem_filter.mpr ⟨hkv, by simpa using hkvn⟩
  have hone :
      jsOmit params ["_sort", "_start", "_limit", "_where", "_publicationState"] ≠ [] := by
    intro hnil
    rw [hnil] at homem
    simp at homem
  have hlen : 0 < (convertExtraRootParams
      (jsOmit params ["_sort", "_start", "_limit", "_where", "_publicationState"])).length :=
    List.length_pos.mpr (convertExtraRootParams_ne_nil hone)
  rw [if_pos hlen, hwhere]
  simp only []
  have hobj : convertWhereParams
      (.obj (convertExtraRootParams
        (jsOmit params ["_sort", "_start", "_limit", "_where", "_publicationState"]))) =
      convertWhereObj (convertExtraRootParams
        (jsOmit params ["_sort", "_start", "_limit", "_where", "_publicationState"])) := by
    rw [convertWhereParams]
  rw [hobj, convertWhereObj_eq_map]

/-- Claim C5 witness: `{a: 1, _where: {b: 2}}` puts the extra-root clause
for `a` strictly before the `_where` clause for `b`. -/
theorem claim5_witness :
    jsGet [("start", JVal.num 0), ("limit", JVal.num 100),
        ("where", .arr [.obj [("field", .str "a"), ("operator", .str "eq"), ("value", .num 1)],
                        .obj [("field", .str "b"), ("operator", .str "eq"), ("value", .num 2)]])]
      "where" = some (.arr (
      ((convertExtraRootParams
          (jsOmit [("a", JVal.num 1), ("_where", JVal.obj [("b", JVal.num 2)])]
            ["_sort", "_start", "_limit", "_where", "_publicationState"])).map
        fun kv => withDefaultOperator (convertWhereClause kv.1 kv.2))
      ++ convertWhereParams (.obj [("b", .num 2)]))) := by
  have heval : convertRestQueryParams
      [("a", JVal.num 1), ("_where", JVal.obj [("b", JVal.num 2)])] [] =
      .ok [("start", JVal.num 0), ("limit", JVal.num 100),
           ("where", .arr [.obj [("field", .str "a"), ("operator", .str "eq"), ("value", .num 1)],
                           .obj [("field", .str "b"), ("operator", .str "eq"),
                                 ("value", .num 2)]])] := by
    simp [convertRestQueryParams, applySortParam, applyStartParam, applyLimitParam,
      applyPublicationStateParam, jsGet, jsSet, jsAssign, jsOmit, whereClausesOf,
      convertExtraRootParams, convertExtraRootParamsFrom, extraRootKey,
      convertWhereParams, convertWhereObj, convertWhereClause, convertWhereParamsList,
      boolGroupsOf, convertGroups, withDefaultOperator, jsField,
      lastUnderscore, splitAtLastUnderscoreAux, QUERY_OPERATORS, BOOLEAN_OPERATORS,
      VALID_REST_OPERATORS, List.filter]
  exact claim5_theorem [("a", JVal.num 1), ("_where", JVal.obj [("b", JVal.num 2)])] []
    [("start", JVal.num 0), ("limit", JVal.num 100),
     ("where", .arr [.obj [("field", .str "a"), ("operator", .str "eq"), ("value", .num 1)],
                     .obj [("field", .str "b"), ("operator", .str "eq"), ("value", .num 2)]])]
    (.obj [("b", JVal.num 2)])
    ⟨("a", JVal.num 1), by simp, by simp⟩ (by simp [jsGet]) heval

/-- A top-level boolean key passes untouched through omission and
extra-root stripping, and its boolean-composition clause lands in the
`where` list of a successful conversion. -/
theorem topBooleanClause (params defaults o : List (String × JVal)) (op key : String)
    (gs : List JVal)
    (hkq : key ∈ QUERY_OPERATORS)
    (hknames : key ∉ ["_sort", "_start", "_limit", "_where", "_publicationState"])
    (hbop : BOOLEAN_OPERATORS.contains op = true)
    (hsplitk : lastUnderscore key = some ("", op))
    (hnodup : (params.map Prod.fst).Nodup)
    (hv : jsGet params key = some (.arr gs))
    (hnc : ∀ kv ∈ params, kv.1.data ≠ '_' :: key.data)
    (hok : convertRestQueryParams params defaults = .ok o) :
    jsGet (convertExtraRootParams
        (jsOmit params ["_sort", "_start", "_limit", "_where", "_publicationState"]))
        key = some (.arr gs)
    ∧ ∃ ws, jsGet o "where" = some (.arr ws)
        ∧ (.obj [("field", .null), ("operator", .str op),
            ("value", .arr (gs.map fun g => .arr (convertWhereParams g)))]) ∈ ws := by
  have homit : jsGet
      (jsOmit params ["_sort", "_start", "_limit", "_where", "_publicationState"]) key =
      some (.arr gs) := by
    rw [jsGet_jsOmit_notMem _ _ _ hknames, hv]
  have hnodup2 : ((jsOmit params
      ["_sort", "_start", "_limit", "_where", "_publicationState"]).map Prod.fst).Nodup := by
    refine List.Nodup.sublist ?_ hnodup
    exact List.Sublist.map _ (List.filter_sublist _)
  have hnc2 : ∀ kv ∈ jsOmit params
      ["_sort", "_start", "_limit", "_where", "_publicationState"],
      kv.1.data ≠ '_' :: key.data :=
    fun kv hkv => hnc kv (List.mem_filter.mp hkv).1
  have part1 : jsGet (convertExtraRootParams
      (jsOmit params ["_sort", "_start", "_limit", "_where", "_publicationState"]))
      key = some (.arr gs) := by
    rw [jsGet_convertExtraRootParams_queryOp _ _ hkq hnodup2 hnc2, homit]
  refine ⟨part1, ?_⟩
  have hne : params ≠ [] := by
    rintro rfl
    simp [jsGet] at hv
  refine ⟨whereClausesOf params, convert_ok_where hne hok, ?_⟩
  have hwpmem : (key, JVal.arr gs) ∈ convertExtraRootParams
      (jsOmit params ["_sort", "_start", "_limit", "_where", "_publicationState"]) :=
    mem_of_jsGet_eq_some part1
  have hlen : 0 < (convertExtraRootParams
      (jsOmit params ["_sort", "_start", "_limit", "_where", "_publicationState"])).length := by
    rcases hlst : convertExtraRootParams
        (jsOmit params ["_sort", "_start", "_limit", "_where", "_publicationState"]) with
      _ | ⟨hd, tl⟩
    · rw [hlst] at hwpmem
      simp at hwpmem
    · simp
  have hclause : withDefaultOperator (convertWhereClause key (.arr gs)) =
      .obj [("field", .null), ("operator", .str op),
        ("value", .arr (gs.map fun g => .arr (convertWhereParams g)))] := by
    rw [convertWhereClause, hsplitk]
    simp only []
    have hbmem : op ∈ BOOLEAN_OPERATORS := by simpa [List.elem_eq_mem] using hbop
    rw [if_pos (by simp [hbmem])]
    rw [boolGroupsOf, convertGroups_eq_map, withDefaultOperator_three]
  unfold whereClausesOf
  simp only []
  refine List.mem_append.mpr (Or.inl ?_)
  rw [if_pos hlen]
  have hobj : convertWhereParams
      (.obj (convertExtraRootParams
        (jsOmit params ["_sort", "_start", "_limit", "_where", "_publicationState"]))) =
      convertWhereObj (convertExtraRootParams
        (jsOmit params ["_sort", "_start", "_limit", "_where", "_publicationState"])) := by
    rw [convertWhereParams]
  rw [hobj, convertWhereObj_eq_map]
  exact List.mem_map.mpr ⟨(key, .arr gs), hwpmem, hclause⟩

/-- Claim C10: a raw-params mapping with a top-level `_or` (or `_and`) key
bound to a list of clause mappings keeps that key's underscore intact
through extra-root stripping (the reserved tokens are exempt), and the
resulting `where` list contains the boolean-composition clause
`{field: null, operator: or/and, value: parsed sub-groups}`. -/
theorem claim10_theorem (params defaults o : List (String × JVal)) (op : String)
    (gs : List JVal)
    (hop : op = "or" ∨ op = "and")
    (hnodup : (params.map Prod.fst).Nodup)
    (hv : jsGet params ("_" ++ op) = some (.arr gs))
    (hnc : ∀ kv ∈ params, kv.1 ≠ "_" ++ ("_" ++ op))
    (hok : convertRestQueryParams params defaults = .ok o) :
    jsGet (convertExtraRootParams
        (jsOmit params ["_sort", "_start", "_limit", "_where", "_publicationState"]))
        ("_" ++ op) = some (.arr gs)
    ∧ ∃ ws, jsGet o "where" = some (.arr ws)
        ∧ (.obj [("field", .null), ("operator", .str op),
            ("value", .arr (gs.map fun g => .arr (convertWhereParams g)))]) ∈ ws := by
  rcases hop with rfl | rfl
  · exact topBooleanClause params defaults o "or" ("_" ++ "or") gs (by decide) (by decide)
      (by decide) (by decide) hnodup hv
      (fun kv hkv hdata => hnc kv hkv (string_eq_of_data_eq (by rw [hdata]; decide))) hok
  · exact topBooleanClause params defaults o "and" ("_" ++ "and") gs (by decide) (by decide)
      (by decide) (by decide) hnodup hv
      (fun kv hkv hdata => hnc kv hkv (string_eq_of_data_eq (by rw [hdata]; decide))) hok

/-- Claim C10 witness: the top-level `_or` example keeps its underscore and
produces the boolean clause. -/
theorem claim10_witness :
    jsGet (convertExtraRootParams
        (jsOmit [("_or", JVal.arr [JVal.obj [("a", JVal.num 1)]])]
          ["_sort", "_start", "_limit", "_where", "_publicationState"]))
        ("_" ++ "or") = some (.arr [JVal.obj [("a", JVal.num 1)]])
    ∧ ∃ ws, jsGet [("start", JVal.num 0), ("limit", JVal.num 100),
          ("where", JVal.arr [.obj [("field", .null), ("operator", .str "or"),
            ("value", .arr [.arr [.obj [("field", .str "a"), ("operator", .str "eq"),
              ("value", .num 1)]]])]])] "where" = some (.arr ws)
        ∧ (JVal.obj [("field", .null), ("operator", .str "or"),
            ("value", .arr ([JVal.obj [("a", JVal.num 1)]].map
              fun g => .arr (convertWhereParams g)))]) ∈ ws := by
  exact claim10_theorem [("_or", JVal.arr [JVal.obj [("a", JVal.num 1)]])] []
    [("start", JVal.num 0), ("limit", JVal.num 100),
     ("where", JVal.arr [.obj [("field", .null), ("operator", .str "or"),
        ("value", .arr [.arr [.obj [("field", .str "a"), ("operator", .str "eq"),
          ("value", .num 1)]]])]])]
    "or" [JVal.obj [("a", JVal.num 1)]] (Or.inl rfl) (by simp)
    (by simp [jsGet]) (by decide) topOrExampleEval

/-- Claim C7: the start parser returns the numeric coercion exactly when it
is a non-negative integer and fails with `InvalidInput` otherwise
(`"5"` gives 5, `"-1"` and `"abc"` fail); the limit parser additionally
accepts exactly -1 (`"-1"` gives -1, `"-2"` fails). -/
theorem claim7_theorem :
    (∀ (q : JVal) (n : Int),
      convertStartQueryParams q = .ok n ↔ (jsToNumber q = some n ∧ 0 ≤ n))
    ∧ (∀ q : JVal, isInvalidInput (convertStartQueryParams q) ↔
        ¬ ∃ n : Int, jsToNumber q = some n ∧ 0 ≤ n)
    ∧ convertStartQueryParams (.str "5") = .ok 5
    ∧ isInvalidInput (convertStartQueryParams (.str "-1"))
    ∧ isInvalidInput (convertStartQueryParams (.str "abc"))
    ∧ (∀ (q : JVal) (n : Int),
      convertLimitQueryParams q = .ok n ↔
        (jsToNumber q = some n ∧ (n = -1 ∨ 0 ≤ n)))
    ∧ (∀ q : JVal, isInvalidInput (convertLimitQueryParams q) ↔
        ¬ ∃ n : Int, jsToNumber q = some n ∧ (n = -1 ∨ 0 ≤ n))
    ∧ convertLimitQueryParams (.str "-1") = .ok (-1)
    ∧ isInvalidInput (convertLimitQueryParams (.str "-2")) := by
  refine ⟨?_, ?_, rfl, ⟨_, rfl⟩, ⟨_, rfl⟩, ?_, ?_, rfl, ⟨_, rfl⟩⟩
  · intro q n
    constructor
    · exact fun h => convertStartQueryParams_ok h
    · rintro ⟨h1, h2⟩
      unfold convertStartQueryParams
      rw [h1]
      simp only []
      rw [if_neg (by omega)]
  · intro q
    unfold convertStartQueryParams
    rcases hv : jsToNumber q with _ | m
    · simp only []
      constructor
      · rintro - ⟨n, hn, -⟩
        simp at hn
      · intro _
        exact ⟨_, rfl⟩
    · simp only []
      by_cases hm : m < 0
      · rw [if_pos hm]
        constructor
        · rintro - ⟨n, hn, hge⟩
          obtain rfl : m = n := by simpa using hn
          omega
        · intro _
          exact ⟨_, rfl⟩
      · rw [if_neg hm]
        constructor
        · rintro ⟨msg, hmsg⟩
          simp at hmsg
        · intro hno
          exact absurd ⟨m, rfl, by omega⟩ hno
  · intro q n
    constructor
    · exact fun h => convertLimitQueryParams_ok h
    · rintro ⟨h1, h2⟩
      unfold convertLimitQueryParams
      rw [h1]
      simp only []
      rw [if_neg (by omega)]
  · intro q
    unfold convertLimitQueryParams
    rcases hv : jsToNumber q with _ | m
    · simp only []
      constructor
      · rintro - ⟨n, hn, -⟩
        simp at hn
      · intro _
        exact ⟨_, rfl⟩
    · simp only []
      by_cases hm : m ≠ -1 ∧ m < 0
      · rw [if_pos hm]
        constructor
        · rintro - ⟨n, hn, hge⟩
          obtain rfl : m = n := by simpa using hn
          omega
        · intro _
          exact ⟨_, rfl⟩
      · rw [if_neg hm]
        constructor
        · rintro ⟨msg, hmsg⟩
          simp at hmsg
        · intro hno
          exact absurd ⟨m, rfl, by omega⟩ hno

/-- Claim C7 witness: the universally-quantified halves of the claim at the
concrete inputs `"5"` and `"-1"`. -/
theorem claim7_witness :
    convertStartQueryParams (.str "5") = .ok 5
    ∧ convertLimitQueryParams (.str "-1") = .ok (-1) := by
  refine ⟨?_, ?_⟩
  · exact (claim7_theorem.1 (.str "5") 5).mpr ⟨rfl, by omega⟩
  · exact (claim7_theorem.2.2.2.2.2.1 (.str "-1") (-1)).mpr ⟨rfl, Or.inl rfl⟩

/-- Claim C9 (counterexample): a defaults mapping is overlaid onto the
seed unvalidated, so `convert({}, {start: -5})` returns a descriptor whose
`start` is the negative integer -5. -/
theorem claim9_counterexample :
    convertRestQueryParams [] [("start", JVal.num (-5))] =
      .ok [("start", JVal.num (-5)), ("limit", JVal.num 100)]
    ∧ ¬ ∀ o, convertRestQueryParams [] [("start", JVal.num (-5))] = .ok o →
        (∃ n : Int, jsGet o "start" = some (.num n) ∧ 0 ≤ n) := by
  refine ⟨rfl, ?_⟩
  intro h
  obtain ⟨n, hn, hge⟩ := h [("start", JVal.num (-5)), ("limit", JVal.num 100)] rfl
  simp [jsGet] at hn
  omega

/-- Claim C9 (amended): whenever every `start` entry of the defaults
mapping is a non-negative integer number and every `limit` entry is -1 or
a non-negative integer number, any descriptor `convert` returns has a
non-negative integer `start` and a `limit` that is -1 or a non-negative
integer. -/
theorem claim9_theorem (params defaults o : List (String × JVal))
    (hds : ∀ kv ∈ defaults, kv.1 = "start" → ∃ n : Int, kv.2 = .num n ∧ 0 ≤ n)
    (hdl : ∀ kv ∈ defaults, kv.1 = "limit" →
      ∃ n : Int, kv.2 = .num n ∧ (n = -1 ∨ 0 ≤ n))
    (hok : convertRestQueryParams params defaults = .ok o) :
    (∃ n : Int, jsGet o "start" = some (.num n) ∧ 0 ≤ n)
    ∧ (∃ n : Int, jsGet o "limit" = some (.num n) ∧ (n = -1 ∨ 0 ≤ n)) := by
  have hseedstart : ∃ n : Int,
      jsGet (jsAssign [("start", JVal.num 0), ("limit", JVal.num 100)] defaults) "start"
        = some (.num n) ∧ 0 ≤ n := by
    rw [jsGet_jsAssign]
    rcases hf : findLastVal defaults "start" with _ | v
    · exact ⟨0, by simp [jsGet], le_rfl⟩
    · obtain ⟨n, hn, hge⟩ := hds _ (findLastVal_mem hf) rfl
      exact ⟨n, by simp only []; exact congrArg some hn, hge⟩
  have hseedlimit : ∃ n : Int,
      jsGet (jsAssign [("start", JVal.num 0), ("limit", JVal.num 100)] defaults) "limit"
        = some (.num n) ∧ (n = -1 ∨ 0 ≤ n) := by
    rw [jsGet_jsAssign]
    rcases hf : findLastVal defaults "limit" with _ | v
    · exact ⟨100, by simp [jsGet], Or.inr (by omega)⟩
    · obtain ⟨n, hn, hc⟩ := hdl _ (findLastVal_mem hf) rfl
      exact ⟨n, by simp only []; exact congrArg some hn, hc⟩
  by_cases hne : params = []
  · subst hne
    obtain rfl : jsAssign [("start", JVal.num 0), ("limit", JVal.num 100)] defaults = o := by
      simpa [convertRestQueryParams] using hok
    exact ⟨hseedstart, hseedlimit⟩
  · obtain ⟨p1, p2, p3, p4, h1, h2, h3, h4, rfl⟩ :=
      convertRestQueryParams_ok_structure hne hok
    constructor
    · rw [jsGet_jsSet_ne _ _ _ _ (by decide),
        applyPublicationStateParam_ok_preserves h4 (by decide),
        applyLimitParam_ok_preserves h3 (by decide)]
      rcases applyStartParam_ok_start h2 with heq | ⟨n, hge, hn⟩
      · rw [heq, applySortParam_ok_preserves h1 (by decide)]
        exact hseedstart
      · exact ⟨n, hn, hge⟩
    · rw [jsGet_jsSet_ne _ _ _ _ (by decide),
        applyPublicationStateParam_ok_preserves h4 (by decide)]
      rcases applyLimitParam_ok_limit h3 with heq | ⟨n, hc, hn⟩
      · rw [heq, applyStartParam_ok_preserves h2 (by decide),
          applySortParam_ok_preserves h1 (by decide)]
        exact hseedlimit
      · exact ⟨n, hn, hc⟩

/-- Claim C9 witness: the amended bounds at the empty call. -/
theorem claim9_witness :
    (∃ n : Int, jsGet [("start", JVal.num 0), ("limit", JVal.num 100)] "start"
        = some (.num n) ∧ 0 ≤ n)
    ∧ (∃ n : Int, jsGet [("start", JVal.num 0), ("limit", JVal.num 100)] "limit"
        = some (.num n) ∧ (n = -1 ∨ 0 ≤ n)) :=
  claim9_theorem [] [] [("start", JVal.num 0), ("limit", JVal.num 100)]
    (by simp) (by simp) rfl

/-- Condition of the amended claim C6, written from its words: the sort
parser raises `InvalidInput` exactly when the input is neither a string
nor an array; or the first non-string element of the input array is
truthy; or a malformed clause string (empty field name, or an order token
whose lower-casing is outside asc/desc) occurs among the elements
preceding the first non-string element (all elements, when every element
is a string). -/
def sortInvalidCond : JVal → Prop
  | .str s => ∃ e ∈ jsSplit s ',', badSortClause e = true
  | .arr xs =>
      (∃ b, xs.find? (fun e => !jsIsString e) = some b ∧ jsTruthy b = true)
      ∨ (∃ s, JVal.str s ∈ xs.takeWhile jsIsString ∧ badSortClause s = true)
  | _ => True

/-- Claim C6 (counterexample): a falsy non-string element such as `0`
escapes the guarded non-string check (`if (invalidClauseType)`) and makes
`clause.split` throw a `TypeError` — not the claimed `InvalidInput` error
naming the element's type. -/
theorem claim6_counterexample :
    convertSortQueryParams (.arr [.num 0])
      = .error (.typeError "clause.split is not a function")
    ∧ ¬ isInvalidInput (convertSortQueryParams (.arr [.num 0])) := by
  refine ⟨rfl, ?_⟩
  rintro ⟨msg, hmsg⟩
  have h0 : convertSortQueryParams (.arr [.num 0])
      = .error (.typeError "clause.split is not a function") := rfl
  rw [h0] at hmsg
  simp at hmsg

/-- Claim C6 (amended): the sort parser fails with `InvalidInput` exactly
under `sortInvalidCond`; when the first non-string element of the array is
truthy, the error names that element's `typeof`. A falsy non-string
element reached during processing raises a `TypeError` instead. -/
theorem claim6_theorem :
    (∀ q : JVal, isInvalidInput (convertSortQueryParams q) ↔ sortInvalidCond q)
    ∧ (∀ (xs : List JVal) (b : JVal), xs.find? (fun e => !jsIsString e) = some b →
        jsTruthy b = true →
        convertSortQueryParams (.arr xs) = .error (.invalidInput
          ("convertSortQueryParams expected an array of string but found \""
            ++ jsTypeof b ++ "\""))) := by
  constructor
  · intro q
    cases q with
    | str s =>
      unfold convertSortQueryParams
      simp only []
      have hfind : ((jsSplit s ',').map JVal.str).find? (fun e => !jsIsString e) = none := by
        rw [List.find?_eq_none]
        intro x hx
        obtain ⟨s', hs', rfl⟩ := List.mem_map.mp hx
        simp [jsIsString]
      rw [hfind, sortKeysOf_invalid_iff]
      have hself : (((jsSplit s ',').map JVal.str).takeWhile jsIsString) =
          (jsSplit s ',').map JVal.str := by
        rw [List.takeWhile_eq_self_iff]
        intro x hx
        obtain ⟨s', hs', rfl⟩ := List.mem_map.mp hx
        simp [jsIsString]
      rw [hself]
      unfold sortInvalidCond
      constructor
      · rintro ⟨s', hs', hbad⟩
        obtain ⟨t, ht, htt⟩ := List.mem_map.mp hs'
        have hts : t = s' := by injection htt
        exact ⟨t, ht, hts ▸ hbad⟩
      · rintro ⟨e, he, hbad⟩
        exact ⟨e, List.mem_map.mpr ⟨e, he, rfl⟩, hbad⟩
    | arr xs =>
      unfold convertSortQueryParams
      simp only []
      unfold sortInvalidCond
      rcases hfind : xs.find? (fun e => !jsIsString e) with _ | b <;> simp only []
      · rw [sortKeysOf_invalid_iff]
        constructor
        · rintro ⟨s, hs, hbad⟩
          exact Or.inr ⟨s, hs, hbad⟩
        · rintro (⟨b, hb, -⟩ | ⟨s, hs, hbad⟩)
          · rw [hfind] at hb
            simp at hb
          · exact ⟨s, hs, hbad⟩
      · by_cases ht : jsTruthy b = true
        · rw [if_pos ht]
          constructor
          · intro _
            exact Or.inl ⟨b, hfind, ht⟩
          · intro _
            exact ⟨_, rfl⟩
        · rw [if_neg ht]
          rw [sortKeysOf_invalid_iff]
          constructor
          · rintro ⟨s, hs, hbad⟩
            exact Or.inr ⟨s, hs, hbad⟩
          · rintro (⟨b', hb', htr⟩ | ⟨s, hs, hbad⟩)
            · obtain rfl : b = b' := by
                rw [hfind] at hb'
                simpa using hb'
              exact absurd htr ht
            · exact ⟨s, hs, hbad⟩
    | undef =>
      exact ⟨fun _ => trivial, fun _ => ⟨_, rfl⟩⟩
    | null =>
      exact ⟨fun _ => trivial, fun _ => ⟨_, rfl⟩⟩
    | bool b =>
      exact ⟨fun _ => trivial, fun _ => ⟨_, rfl⟩⟩
    | num m =>
      exact ⟨fun _ => trivial, fun _ => ⟨_, rfl⟩⟩
    | obj kvs =>
      exact ⟨fun _ => trivial, fun _ => ⟨_, rfl⟩⟩
  · intro xs b hfind ht
    unfold convertSortQueryParams
    simp only []
    rw [hfind]
    simp only []
    rw [if_pos ht]

/-- Claim C6 witness: a numeric input fails with `InvalidInput`, and a
truthy non-string element is rejected with an error naming its type. -/
theorem claim6_witness :
    isInvalidInput (convertSortQueryParams (.num 123))
    ∧ convertSortQueryParams (.arr [.str "id", .num 5]) = .error (.invalidInput
        ("convertSortQueryParams expected an array of string but found \""
          ++ jsTypeof (.num 5) ++ "\"")) := by
  refine ⟨?_, ?_⟩
  · exact (claim6_theorem.1 (.num 123)).mpr trivial
  · exact claim6_theorem.2 [.str "id", .num 5] (.num 5) rfl rfl
